import Mathlib

/-!
Verification of the WebMVCEmployees employee service (Go) against its
natural-language specification.  The Go service layer is shallowly embedded:
the MongoDB employee collection is a `List Employee` in insertion (natural)
order, Go `time` calendar arithmetic is embedded via the standard civil-date
conversion algorithms, and `strconv.Atoi` is embedded directly.
-/

/-- HTTP error as produced by `errors.NewHTTPError(code, msg)`. -/
structure HTTPError where
  code : Nat
  msg : String
deriving DecidableEq, Repr

/-- `models.Birthdate`: day/month/year stored as strings. -/
structure Birthdate where
  day : String
  month : String
  year : String
deriving DecidableEq, Repr

/-- `models.Employee`: the stored employee document.  `manager` is a
`*string` in Go, embedded as `Option String` (absent field = `none`). -/
structure Employee where
  email : String
  name : String
  password : String
  birthdate : Birthdate
  roles : List String
  manager : Option String
deriving DecidableEq, Repr

/-- Clearing the password before returning a response (`emp.Password = ""`). -/
def clearPassword (e : Employee) : Employee :=
  ⟨e.email, e.name, "", e.birthdate, e.roles, e.manager⟩

/-- The `$set {manager: m}` update applied to a single document. -/
def setManagerField (e : Employee) (m : String) : Employee :=
  ⟨e.email, e.name, e.password, e.birthdate, e.roles, some m⟩

/-- ASCII decimal digit test (`ch >= '0' && ch <= '9'` in Go). -/
def isDigit (c : Char) : Bool :=
  '0' ≤ c && c ≤ '9'

/-- ASCII uppercase test (`ch >= 'A' && ch <= 'Z'` in Go). -/
def isUpper (c : Char) : Bool :=
  'A' ≤ c && c ≤ 'Z'

/-- Accumulate a decimal digit string into a natural number. -/
def digitsToNat (ds : List Char) : Nat :=
  ds.foldl (fun acc c => 10 * acc + (c.toNat - 48)) 0

/-- Go `strconv.Atoi`: an optional single `+`/`-` sign followed by one or
more ASCII decimal digits; errors (here `none`) on an empty string, a bare
sign, any non-digit character, or 64-bit overflow. -/
def atoi (s : String) : Option Int :=
  match s.toList with
  | [] => none
  | c :: cs =>
    let neg : Bool := c = '-'
    let ds : List Char := if c = '-' || c = '+' then cs else c :: cs
    if ds.isEmpty then none
    else if ds.all isDigit then
      let n : Nat := digitsToNat ds
      if neg then
        if n ≤ 2 ^ 63 then some (-(n : Int)) else none
      else
        if n ≤ 2 ^ 63 - 1 then some (n : Int) else none
    else none

/-- Days from civil date (proleptic Gregorian, days since 1970-01-01), the
standard algorithm used to embed Go `time` absolute-day computation.  Valid
for every month in `[1,12]` and every integer day (out-of-range days simply
offset the date, exactly as Go `time.Date` normalises them). -/
def daysFromCivil (y m d : Int) : Int :=
  let y1 : Int := if m ≤ 2 then y - 1 else y
  let era : Int := Int.ediv y1 400
  let yoe : Int := y1 - era * 400
  let mp : Int := Int.emod (m + 9) 12
  let doy : Int := Int.ediv (153 * mp + 2) 5 + d - 1
  let doe : Int := yoe * 365 + Int.ediv yoe 4 - Int.ediv yoe 100 + doy
  era * 146097 + doe - 719468

/-- Civil date from days since 1970-01-01 (inverse of `daysFromCivil`). -/
def civilFromDays (z0 : Int) : Int × Int × Int :=
  let z : Int := z0 + 719468
  let era : Int := Int.ediv z 146097
  let doe : Int := z - era * 146097
  let yoe : Int :=
    Int.ediv (doe - Int.ediv doe 1460 + Int.ediv doe 36524 - Int.ediv doe 146096) 365
  let y : Int := yoe + era * 400
  let doy : Int := doe - (365 * yoe + Int.ediv yoe 4 - Int.ediv yoe 100)
  let mp : Int := Int.ediv (5 * doy + 2) 153
  let d : Int := doy - Int.ediv (153 * mp + 2) 5 + 1
  let m : Int := if mp < 10 then mp + 3 else mp - 9
  (if m ≤ 2 then y + 1 else y, m, d)

/-- Go `time.Date(y, m, d, 0,0,0,0, UTC)` reduced to days since the Unix
epoch: the month is first normalised into `[1,12]` by floor division
(Go `norm`), then the possibly out-of-range day offsets the date. -/
def goDateToDays (y m d : Int) : Int :=
  let m0 : Int := m - 1
  daysFromCivil (y + Int.ediv m0 12) (Int.emod m0 12 + 1) d

/-- `t.Year()` of a UTC instant lying on day `z` since the epoch. -/
def yearOf (z : Int) : Int :=
  (civilFromDays z).1

/-- `t.YearDay()` (1-based ordinal day within the year) of day `z`. -/
def yearDayOf (z : Int) : Int :=
  z - daysFromCivil (yearOf z) 1 1 + 1

/-- The age computation of `GetEmployeesByAge`: `now.Year() - birthDate.Year()`,
decremented when `now.YearDay() < birthDate.YearDay()`.  `nowUnix` is the
reference instant in Unix seconds (interpreted in UTC), `bdDays` the
birthdate as days since the epoch. -/
def ageAt (nowUnix : Int) (bdDays : Int) : Int :=
  let nz : Int := Int.ediv nowUnix 86400
  let a : Int := yearOf nz - yearOf bdDays
  if yearDayOf nz < yearDayOf bdDays then a - 1 else a

/-- Lexicographic (code-point, hence UTF-8 byte) order on strings as used by
MongoDB when sorting on a string field with the default binary collation. -/
def strLeB : List Char → List Char → Bool
  | [], _ => true
  | _ :: _, [] => false
  | a :: as, b :: bs =>
    if a.toNat < b.toNat then true
    else if b.toNat < a.toNat then false
    else strLeB as bs

/-- Store-side ascending sort key on the `email` field. -/
def emailLe (x y : Employee) : Prop :=
  strLeB x.email.toList y.email.toList = true

instance : DecidableRel emailLe := fun x y => by
  unfold emailLe
  infer_instance

/-- The comparator of the in-process age-filter sort: the birthdate as a
`time.Date` instant, components parsed with `strconv.Atoi` ignoring errors
(a failed parse yields Go's zero value `0`). -/
def bdKey (e : Employee) : Int :=
  goDateToDays ((atoi e.birthdate.year).getD 0) ((atoi e.birthdate.month).getD 0)
    ((atoi e.birthdate.day).getD 0)

/-- Ascending order on the birthdate sort key. -/
def bdLe (x y : Employee) : Prop :=
  bdKey x ≤ bdKey y

instance : DecidableRel bdLe := fun x y => by
  unfold bdLe
  infer_instance

/-- `validateBirthdate` (services): length checks on day/month/year (Go `len`,
i.e. UTF-8 byte length), `strconv.Atoi` conversions, then rejection when the
composed `time.Date` lies strictly after `time.Now().UTC()`; `nowUnix` embeds
the wall clock as Unix seconds. -/
def validateBirthdate (nowUnix : Int) (b : Birthdate) : Except HTTPError Unit :=
  if b.day.utf8ByteSize ≠ 2 then .error ⟨400, "birthdate day must be two digits"⟩
  else if b.month.utf8ByteSize ≠ 2 then .error ⟨400, "birthdate month must be two digits"⟩
  else if b.year.utf8ByteSize ≠ 4 then .error ⟨400, "birthdate year must be four digits"⟩
  else
    match atoi b.day with
    | none => .error ⟨400, "birthdate day must be numeric"⟩
    | some d =>
      match atoi b.month with
      | none => .error ⟨400, "birthdate month must be numeric"⟩
      | some m =>
        match atoi b.year with
        | none => .error ⟨400, "birthdate year must be numeric"⟩
        | some y =>
          if 86400 * goDateToDays y m d > nowUnix then
            .error ⟨400, "birthdate cannot be in the future"⟩
          else .ok ()

/-- `validatePassword` (services): length ≥ 3 (Go `len`, bytes), at least one
ASCII digit and one ASCII uppercase letter among the runes. -/
def validatePassword (password : String) : Except HTTPError Unit :=
  if password.utf8ByteSize < 3 then
    .error ⟨400, "password must be at least 3 characters"⟩
  else if !(password.toList.any isDigit) || !(password.toList.any isUpper) then
    .error ⟨400, "password must contain at least one digit and one uppercase letter"⟩
  else .ok ()

/-- `validateManager` (services): an empty manager email passes; otherwise a
`FindOne` on the `email` field must locate an existing employee. -/
def validateManager (store : List Employee) (managerEmail : String) : Except HTTPError Unit :=
  if managerEmail = "" then .ok ()
  else
    match store.find? (fun r => r.email == managerEmail) with
    | none => .error ⟨400, "manager not found"⟩
    | some _ => .ok ()

/-- `CreateEmployee` (services): required-field check, email-format check
(`mail.ParseAddress`, embedded as the caller-supplied predicate
`parseAddressOk` since its RFC 5322 grammar is external to this repository),
birthdate, password and manager validation in source order, then `InsertOne`
whose unique index on `email` turns a duplicate into a 409 conflict.  Returns
the service result together with the collection after the call. -/
def CreateEmployee (parseAddressOk : String → Bool) (nowUnix : Int)
    (store : List Employee) (emp : Employee) :
    Except HTTPError Employee × List Employee :=
  if emp.email = "" ∨ emp.name = "" then
    (.error ⟨400, "email and name are required"⟩, store)
  else if !(parseAddressOk emp.email) then
    (.error ⟨400, "invalid email format"⟩, store)
  else
    match validateBirthdate nowUnix emp.birthdate with
    | .error e => (.error e, store)
    | .ok () =>
      match validatePassword emp.password with
      | .error e => (.error e, store)
      | .ok () =>
        match (match emp.manager with
               | some m => validateManager store m
               | none => .ok ()) with
        | .error e => (.error e, store)
        | .ok () =>
          if store.any (fun r => r.email == emp.email) then
            (.error ⟨409, "employee with this email already exists"⟩, store)
          else
            (.ok (clearPassword emp), store ++ [emp])

/-- `GetEmployee` (services): `FindOne` on email and password equality, 404
when absent, password cleared on success. -/
def GetEmployee (store : List Employee) (email password : String) :
    Except HTTPError Employee :=
  match store.find? (fun r => r.email == email && r.password == password) with
  | none => .error ⟨404, "employee not found"⟩
  | some emp => .ok (clearPassword emp)

/-- `GetSubordinates` (services): `Find` on `manager = managerEmail`, sorted
by email ascending, skip `(page-1)*size`, limit `size`, passwords cleared. -/
def GetSubordinates (store : List Employee) (managerEmail : String)
    (page size : Nat) : List Employee :=
  let found :=
    ((List.insertionSort emailLe
        (store.filter (fun e => e.manager == some managerEmail))).drop
      ((page - 1) * size)).take size
  found.map clearPassword

/-- `GetManager` (services): find the employee, then its manager reference,
then the manager record; each missing step is a distinct 404. -/
def GetManager (store : List Employee) (employeeEmail : String) :
    Except HTTPError Employee :=
  match store.find? (fun r => r.email == employeeEmail) with
  | none => .error ⟨404, "employee not found"⟩
  | some emp =>
    match emp.manager with
    | none => .error ⟨404, "manager not set"⟩
    | some mEmail =>
      match store.find? (fun r => r.email == mEmail) with
      | none => .error ⟨404, "manager not found"⟩
      | some mgr => .ok (clearPassword mgr)

/-- `UpdateOne` with filter `email = e` and `$set {manager: m}`: the first
matching document (at most one under the unique index) gets its manager
field replaced. -/
def updateFirstManager : List Employee → String → String → List Employee
  | [], _, _ => []
  | r :: rest, e, m =>
    if r.email == e then setManagerField r m :: rest
    else r :: updateFirstManager rest e m

/-- `SetManager` (services): find the employee (404 when absent), validate
the manager email (400 when non-empty and unresolved), then `$set` the
manager field.  Returns the result and the collection after the call. -/
def SetManager (store : List Employee) (employeeEmail managerEmail : String) :
    Except HTTPError Unit × List Employee :=
  match store.find? (fun r => r.email == employeeEmail) with
  | none => (.error ⟨404, "employee not found"⟩, store)
  | some _ =>
    match validateManager store managerEmail with
    | .error e => (.error e, store)
    | .ok () => (.ok (), updateFirstManager store employeeEmail managerEmail)

/-- `GetEmployeesByAge` (services): full unfiltered scan; per record the
birthdate components are parsed with `strconv.Atoi` (a failing component
skips the record), the age relative to `time.Unix(currentUnix, 0)` is
computed by year difference with a day-of-year decrement, matching records
get their password cleared; the matches are sorted ascending by the
`time.Date` of their birthdate; finally the Go slice `filtered[start:end]`
with `start = (page-1)*size` (empty result when `start > len`) and
`end = min(start+size, len)` is returned. -/
def GetEmployeesByAge (store : List Employee) (ageInYears : Int)
    (currentUnix : Int) (page size : Nat) : List Employee :=
  let filtered := store.filterMap (fun emp =>
    match atoi emp.birthdate.year, atoi emp.birthdate.month, atoi emp.birthdate.day with
    | some bY, some bM, some bD =>
      if ageAt currentUnix (goDateToDays bY bM bD) = ageInYears then
        some (clearPassword emp)
      else none
    | _, _, _ => none)
  let sorted := List.insertionSort bdLe filtered
  let start := (page - 1) * size
  if start > sorted.length then []
  else (sorted.drop start).take (min (start + size) sorted.length - start)

/-- ASCII case folding as applied by the regex option `i`. -/
def asciiLower (c : Char) : Char :=
  if 'A' ≤ c && c ≤ 'Z' then Char.ofNat (c.toNat + 32) else c

/-- One regex pattern position against one subject character: `.` matches any
character, anything else matches itself up to ASCII case. -/
def charMatches (p c : Char) : Bool :=
  p = '.' || asciiLower p = asciiLower c

/-- Whether a fixed-length regex pattern (literal characters and the `.`
wildcard) followed by the `$` anchor matches the subject: since the pattern
has fixed length and must end at end-of-subject, the unique candidate
alignment is the subject's suffix of the pattern's length. -/
def matchEnd (pat s : List Char) : Bool :=
  if pat.length ≤ s.length then
    ((s.drop (s.length - pat.length)).zip pat).all (fun pc => charMatches pc.2 pc.1)
  else false

/-- The store-side filter of `GetEmployeesByEmailDomain`:
`{email: {$regex: "@" + domain + "$", $options: "i"}}`.  This embeds the
MongoDB (PCRE) regex engine for the patterns the service actually builds:
`"@" ++ domain ++ "$"` where the only metacharacter appearing in `domain`
is `.` (matching any single character); `$options: "i"` folds ASCII case. -/
def emailMatchesDomain (domain email : String) : Bool :=
  matchEnd ('@' :: domain.toList) email.toList

/-- `GetEmployeesByEmailDomain` (services): regex filter on the email field
(no sort option is set, so natural/insertion order), skip `(page-1)*size`,
limit `size`, passwords cleared. -/
def GetEmployeesByEmailDomain (store : List Employee) (domain : String)
    (page size : Nat) : List Employee :=
  let found :=
    ((store.filter (fun e => emailMatchesDomain domain e.email)).drop
      ((page - 1) * size)).take size
  found.map clearPassword

/-- Spec-side age of a record relative to reference instant `T` (Unix
seconds): the year difference between `T` and the birthdate, decremented by
one when `T`'s day-of-year is strictly below the birthdate's day-of-year;
`none` when a birthdate component does not parse as an integer. -/
def specAge (tUnix : Int) (r : Employee) : Option Int :=
  match atoi r.birthdate.year, atoi r.birthdate.month, atoi r.birthdate.day with
  | some y, some m, some d => some (ageAt tUnix (goDateToDays y m d))
  | _, _, _ => none

/-- Spec-side description of the age query: keep exactly the records whose
computed age equals the requested age (passwords stripped per the global
read-path rule), sort ascending by full calendar birthdate, then return the
slice starting at `(page-1)*size` of length at most `size`. -/
def specByAge (store : List Employee) (ageInYears : Int) (tUnix : Int)
    (page size : Nat) : List Employee :=
  ((List.insertionSort bdLe
      ((store.filter (fun r => specAge tUnix r == some ageInYears)).map
        clearPassword)).drop
    ((page - 1) * size)).take size

/-- Spec-side description of the subordinate query: exactly the records whose
manager field equals the given manager email, sorted by email ascending,
skip `(page-1)*size`, limit `size`, passwords cleared. -/
def specSubordinates (store : List Employee) (managerEmail : String)
    (page size : Nat) : List Employee :=
  (((List.insertionSort emailLe
        (store.filter (fun e => e.manager == some managerEmail))).drop
      ((page - 1) * size)).take size).map clearPassword

/-- Spec-side description of the domain match: the email, compared
case-insensitively, ends with `"@"` followed by the literal characters of
the domain. -/
def specSuffixCI (domain email : String) : Bool :=
  (('@' :: domain.toList).map asciiLower).isSuffixOf (email.toList.map asciiLower)

/-- Spec-side description of the domain query: exactly the records whose
email has `"@" ++ domain` as a case-insensitive literal suffix, in store
order, skip `(page-1)*size`, limit `size`, passwords cleared. -/
def specByEmailDomain (store : List Employee) (domain : String)
    (page size : Nat) : List Employee :=
  (((store.filter (fun e => specSuffixCI domain e.email)).drop
      ((page - 1) * size)).take size).map clearPassword

/-- The width part of the birthdate format checks (Go `len`, bytes). -/
def bdWidthsOk (b : Birthdate) : Bool :=
  b.day.utf8ByteSize == 2 && b.month.utf8ByteSize == 2 && b.year.utf8ByteSize == 4

/-- The numeric part of the birthdate format checks: all three components
parse under `strconv.Atoi`. -/
def bdParsesOk (b : Birthdate) : Bool :=
  (atoi b.day).isSome && (atoi b.month).isSome && (atoi b.year).isSome

/-- The composed `time.Date` of a birthdate, in days since the epoch
(components defaulting to Go's zero value on a failed parse). -/
def bdComposedDays (b : Birthdate) : Int :=
  goDateToDays ((atoi b.year).getD 0) ((atoi b.month).getD 0) ((atoi b.day).getD 0)

/-- The birthdate-format error messages of `validateBirthdate` (the spec's
`InvalidFormat` class, as opposed to its `OutOfRange` class). -/
def birthdateFormatMsgs : List String :=
  ["birthdate day must be two digits", "birthdate month must be two digits",
   "birthdate year must be four digits", "birthdate day must be numeric",
   "birthdate month must be numeric", "birthdate year must be numeric"]

/-- Whether a `validateBirthdate` result is an `InvalidFormat` failure. -/
def isInvalidFormatResult (r : Except HTTPError Unit) : Bool :=
  match r with
  | .error e => e.code == 400 && birthdateFormatMsgs.contains e.msg
  | .ok _ => false

/-- All creation-time field validations of `CreateEmployee` pass (required
fields, email format, birthdate, password, manager reference). -/
def fieldChecksPass (pOk : String → Bool) (nowUnix : Int)
    (store : List Employee) (emp : Employee) : Bool :=
  !(emp.email == "") && !(emp.name == "") && pOk emp.email
    && (validateBirthdate nowUnix emp.birthdate).isOk
    && (validatePassword emp.password).isOk
    && (match emp.manager with
        | some m => (validateManager store m).isOk
        | none => true)

/-- Characters that are literal both in a PCRE pattern and in this file's
embedding of it: ASCII letters, digits, hyphen and underscore. -/
def regexSafeChar (c : Char) : Bool :=
  isDigit c || isUpper c || ('a' ≤ c && c ≤ 'z') || c = '-' || c = '_'

/-- A fixed reference instant for concrete evaluations:
2020-06-15T00:00:00Z as Unix seconds. -/
def sampleT : Int := 1592179200

/-- A well-formed birthdate used by concrete evaluations. -/
def sampleBirthdate : Birthdate := ⟨"03", "01", "1999"⟩

/-- A fully valid employee used by concrete evaluations. -/
def sampleEmployee : Employee := ⟨"alice@b.c", "Alice", "Pa5", sampleBirthdate, [], none⟩

/-- An employee with an empty email (invalid for creation). -/
def sampleNoEmail : Employee := ⟨"", "Bob", "Pa5", sampleBirthdate, [], none⟩

/-- Builds a simple employee record for concrete stores. -/
def mkEmp (em d m y : String) : Employee := ⟨em, "n", "Pw1", ⟨d, m, y⟩, [], none⟩

/-- A store whose three records have ages 30, 30, 31 at `sampleT` — except
the first, whose birthday (June 20) has not yet been reached, making the
ages 29, 30, 31. -/
def ageStore : List Employee :=
  [mkEmp "a@x.com" "20" "06" "1990", mkEmp "b@x.com" "01" "01" "1990",
   mkEmp "c@x.com" "01" "01" "1989"]

/-- A store with a manager relationship: alice reports to bob. -/
def mgrStore : List Employee :=
  [⟨"alice@x.com", "Alice", "Pa5", sampleBirthdate, [], some "bob@x.com"⟩,
   ⟨"bob@x.com", "Bob", "Pb5", sampleBirthdate, [], none⟩]

/-- A store with one record whose email has no literal `@other.com` suffix. -/
def dotStore : List Employee :=
  [⟨"alice@otherxcom", "Alice", "Pa5", sampleBirthdate, [], none⟩]

lemma strLeB_total : ∀ as bs : List Char, strLeB as bs = true ∨ strLeB bs as = true
  | [], _ => Or.inl rfl
  | _ :: _, [] => Or.inr rfl
  | a :: as, b :: bs => by
    unfold strLeB
    rcases Nat.lt_trichotomy a.toNat b.toNat with h | h | h
    · left
      simp [h]
    · have h1 : ¬ a.toNat < b.toNat := by omega
      have h2 : ¬ b.toNat < a.toNat := by omega
      simpa [h1, h2] using strLeB_total as bs
    · right
      simp [h]

lemma strLeB_trans : ∀ as bs cs : List Char,
    strLeB as bs = true → strLeB bs cs = true → strLeB as cs = true
  | [], _, _ => by intro _ _; rfl
  | a :: as, [], _ => by intro h; simp [strLeB] at h
  | _ :: _, _ :: _, [] => by intro _ h; simp [strLeB] at h
  | a :: as, b :: bs, c :: cs => by
    intro h1 h2
    unfold strLeB at h1 h2 ⊢
    by_cases hab : a.toNat < b.toNat
    · by_cases hbc : b.toNat < c.toNat
      · simp [show a.toNat < c.toNat by omega]
      · by_cases hcb : c.toNat < b.toNat
        · simp [hbc, hcb] at h2
        · simp [show a.toNat < c.toNat by omega]
    · by_cases hba : b.toNat < a.toNat
      · simp [hab, hba] at h1
      · rw [if_neg hab, if_neg hba] at h1
        by_cases hbc : b.toNat < c.toNat
        · simp [show a.toNat < c.toNat by omega]
        · by_cases hcb : c.toNat < b.toNat
          · simp [hbc, hcb] at h2
          · rw [if_neg hbc, if_neg hcb] at h2
            rw [if_neg (show ¬ a.toNat < c.toNat by omega),
              if_neg (show ¬ c.toNat < a.toNat by omega)]
            exact strLeB_trans as bs cs h1 h2

instance : IsTotal Employee emailLe :=
  ⟨fun a b => strLeB_total a.email.toList b.email.toList⟩

instance : IsTrans Employee emailLe :=
  ⟨fun a b c => strLeB_trans a.email.toList b.email.toList c.email.toList⟩

instance : IsTotal Employee bdLe :=
  ⟨fun a b => le_total (bdKey a) (bdKey b)⟩

instance : IsTrans Employee bdLe :=
  ⟨fun _ _ _ h1 h2 => le_trans h1 h2⟩

@[simp] lemma clearPassword_email (e : Employee) : (clearPassword e).email = e.email := rfl

@[simp] lemma clearPassword_name (e : Employee) : (clearPassword e).name = e.name := rfl

@[simp] lemma clearPassword_password (e : Employee) : (clearPassword e).password = "" := rfl

@[simp] lemma clearPassword_birthdate (e : Employee) :
    (clearPassword e).birthdate = e.birthdate := rfl

@[simp] lemma clearPassword_roles (e : Employee) : (clearPassword e).roles = e.roles := rfl

@[simp] lemma clearPassword_manager (e : Employee) :
    (clearPassword e).manager = e.manager := rfl

@[simp] lemma specAge_clearPassword (t : Int) (e : Employee) :
    specAge t (clearPassword e) = specAge t e := rfl

@[simp] lemma bdKey_clearPassword (e : Employee) : bdKey (clearPassword e) = bdKey e := rfl

lemma emailLe_clearPassword {a b : Employee} (h : emailLe a b) :
    emailLe (clearPassword a) (clearPassword b) := h

/-- `filterMap` of a guarded `some` is `map` after `filter`. -/
lemma filterMap_guard {α β : Type} (p : α → Bool) (g : α → β) (l : List α) :
    l.filterMap (fun a => if p a then some (g a) else none) = (l.filter p).map g := by
  induction l with
  | nil => rfl
  | cons x xs ih =>
    by_cases h : p x <;> simp [List.filterMap_cons, List.filter_cons, h, ih]

/-- The Go slice `l[start:min(start+size, len)]` guarded by `start > len`
is plain `drop`/`take`. -/
lemma goSlice_eq_drop_take {α : Type} (l : List α) (start size : Nat) :
    (if start > l.length then ([] : List α)
     else (l.drop start).take (min (start + size) l.length - start)) =
      (l.drop start).take size := by
  by_cases h : start > l.length
  · rw [if_pos h, List.drop_eq_nil_of_le (by omega), List.take_nil]
  · rw [if_neg h]
    rw [List.take_eq_take]
    rw [List.length_drop]
    omega

/-- Under pairwise-distinct emails, `FindOne` on a stored record's email
returns precisely that record. -/
lemma find?_unique {store : List Employee} {r : Employee}
    (hu : store.Pairwise (fun a b => a.email ≠ b.email))
    (hr : r ∈ store) {e : String} (he : r.email = e) :
    store.find? (fun x => x.email == e) = some r := by
  induction store with
  | nil => cases hr
  | cons x xs ih =>
    rcases List.mem_cons.mp hr with rfl | hmem
    · exact List.find?_cons_of_pos _ (by simp [he])
    · have hx : x.email ≠ r.email := (List.pairwise_cons.mp hu).1 r hmem
      rw [List.find?_cons_of_neg _ (by simp [he ▸ hx])]
      exact ih (List.pairwise_cons.mp hu).2 hmem

lemma exceptUnit_isOk {r : Except HTTPError Unit} (h : r.isOk = true) : r = .ok () := by
  cases r with
  | error e => simp [Except.isOk, Except.toBool] at h
  | ok u => cases u; rfl

lemma validateBirthdate_of_format (nowUnix : Int) (b : Birthdate)
    (hw : bdWidthsOk b = true) (hp : bdParsesOk b = true) :
    validateBirthdate nowUnix b =
      if 86400 * bdComposedDays b > nowUnix then
        .error ⟨400, "birthdate cannot be in the future"⟩
      else .ok () := by
  unfold bdWidthsOk at hw
  unfold bdParsesOk at hp
  simp only [Bool.and_eq_true, beq_iff_eq, Option.isSome_iff_exists] at hw hp
  obtain ⟨⟨hd2, hm2⟩, hy4⟩ := hw
  obtain ⟨⟨⟨d, hd⟩, ⟨m, hm⟩⟩, ⟨y, hy⟩⟩ := hp
  unfold validateBirthdate bdComposedDays
  rw [if_neg (by simp [hd2]), if_neg (by simp [hm2]), if_neg (by simp [hy4]),
    hd, hm, hy]
  simp

lemma validateBirthdate_format_fail (nowUnix : Int) (b : Birthdate)
    (h : (bdWidthsOk b && bdParsesOk b) = false) :
    isInvalidFormatResult (validateBirthdate nowUnix b) = true := by
  unfold validateBirthdate
  by_cases hd2 : b.day.utf8ByteSize ≠ 2
  · rw [if_pos hd2]; rfl
  by_cases hm2 : b.month.utf8ByteSize ≠ 2
  · rw [if_neg hd2, if_pos hm2]; rfl
  by_cases hy4 : b.year.utf8ByteSize ≠ 4
  · rw [if_neg hd2, if_neg hm2, if_pos hy4]; rfl
  rw [if_neg hd2, if_neg hm2, if_neg hy4]
  rcases hpd : atoi b.day with _ | d
  · rfl
  rcases hpm : atoi b.month with _ | m
  · rfl
  rcases hpy : atoi b.year with _ | y
  · rfl
  exfalso
  have : (bdWidthsOk b && bdParsesOk b) = true := by
    unfold bdWidthsOk bdParsesOk
    simp [hpd, hpm, hpy]
    omega
  simp [this] at h

lemma isInvalidFormatResult_shape {r : Except HTTPError Unit}
    (h : isInvalidFormatResult r = true) :
    r ≠ .ok () ∧ r ≠ .error ⟨400, "birthdate cannot be in the future"⟩ := by
  cases r with
  | ok u => simp [isInvalidFormatResult] at h
  | error e =>
    refine ⟨by simp, ?_⟩
    intro he
    rw [he] at h
    simp [isInvalidFormatResult, birthdateFormatMsgs] at h

lemma createEmployee_shape (pOk : String → Bool) (nowUnix : Int)
    (store : List Employee) (emp : Employee) :
    ((CreateEmployee pOk nowUnix store emp).2 = store
      ∧ ∀ res, (CreateEmployee pOk nowUnix store emp).1 ≠ Except.ok res)
    ∨ (CreateEmployee pOk nowUnix store emp
        = (Except.ok (clearPassword emp), store ++ [emp])
      ∧ store.any (fun r => r.email == emp.email) = false
      ∧ fieldChecksPass pOk nowUnix store emp = true) := by
  unfold CreateEmployee
  by_cases h1 : emp.email = "" ∨ emp.name = ""
  · left; rw [if_pos h1]; exact ⟨rfl, fun res h => by cases h⟩
  rw [if_neg h1]
  by_cases h2 : pOk emp.email = true
  case neg =>
    left
    rw [if_pos (by simp [h2])]
    exact ⟨rfl, fun res h => by cases h⟩
  rw [if_neg (by simp [h2])]
  rcases hvb : validateBirthdate nowUnix emp.birthdate with e | u
  · left; exact ⟨rfl, fun res h => by cases h⟩
  cases u
  rcases hvp : validatePassword emp.password with e | u
  · left; exact ⟨rfl, fun res h => by cases h⟩
  cases u
  rcases hmg : (match emp.manager with
               | some m => validateManager store m
               | none => .ok ()) with e | u
  · left; rw [hmg]; exact ⟨rfl, fun res h => by cases h⟩
  cases u
  rw [hmg]
  by_cases hdup : store.any (fun r => r.email == emp.email) = true
  · left; rw [if_pos hdup]; exact ⟨rfl, fun res h => by cases h⟩
  · right
    rw [if_neg hdup]
    refine ⟨rfl, by simpa using hdup, ?_⟩
    push_neg at h1
    unfold fieldChecksPass
    rcases hm : emp.manager with _ | m
    · simp [h1.1, h1.2, h2, hvb, hvp, Except.isOk, Except.toBool]
    · rw [hm] at hmg
      have hmg2 : validateManager store m = .ok () := hmg
      simp [h1.1, h1.2, h2, hvb, hvp, hmg2, Except.isOk, Except.toBool]

lemma createEmployee_conflict (pOk : String → Bool) (nowUnix : Int)
    (store : List Employee) (emp : Employee)
    (hf : fieldChecksPass pOk nowUnix store emp = true)
    (hdup : store.any (fun r => r.email == emp.email) = true) :
    CreateEmployee pOk nowUnix store emp
      = (Except.error ⟨409, "employee with this email already exists"⟩, store) := by
  unfold fieldChecksPass at hf
  simp only [Bool.and_eq_true, Bool.not_eq_true', beq_eq_false_iff_ne] at hf
  obtain ⟨⟨⟨⟨⟨hne, hnn⟩, hpk⟩, hvb⟩, hvp⟩, hmg⟩ := hf
  unfold CreateEmployee
  rw [if_neg (by tauto), if_neg (by simp [hpk]), exceptUnit_isOk hvb,
    exceptUnit_isOk hvp]
  have hmg' : (match emp.manager with
               | some m => validateManager store m
               | none => (.ok () : Except HTTPError Unit)) = .ok () := by
    rcases hm : emp.manager with _ | m
    · rfl
    · rw [hm] at hmg
      exact exceptUnit_isOk hmg
  rw [hmg', if_pos hdup]

lemma zip_all_charMatches (xs ys : List Char) (h : xs.length = ys.length)
    (hy : ∀ c ∈ ys, c ≠ '.') :
    (((xs.zip ys).all fun pc => charMatches pc.2 pc.1) = true) ↔
      ys.map asciiLower = xs.map asciiLower := by
  induction xs generalizing ys with
  | nil =>
    cases ys with
    | nil => simp
    | cons y yt => simp at h
  | cons x xt ih =>
    cases ys with
    | nil => simp at h
    | cons y yt =>
      have hy0 : y ≠ '.' := hy y (by simp)
      have hyt : ∀ c ∈ yt, c ≠ '.' := fun c hc => hy c (by simp [hc])
      have h' : xt.length = yt.length := by simpa using h
      have hcm : (charMatches y x = true) ↔ asciiLower y = asciiLower x := by
        simp [charMatches, hy0]
      simp only [List.zip_cons_cons, List.all_cons, Bool.and_eq_true, List.map_cons,
        List.cons.injEq]
      rw [hcm, ih yt h' hyt]

lemma matchEnd_eq_suffixCI (pat s : List Char) (hp : ∀ c ∈ pat, c ≠ '.') :
    matchEnd pat s = (pat.map asciiLower).isSuffixOf (s.map asciiLower) := by
  apply Bool.coe_iff_coe.mp
  rw [List.isSuffixOf_iff_suffix, List.suffix_iff_eq_drop]
  simp only [List.length_map, ← List.map_drop]
  unfold matchEnd
  by_cases hlen : pat.length ≤ s.length
  · rw [if_pos hlen]
    have hzl : (s.drop (s.length - pat.length)).length = pat.length := by
      rw [List.length_drop]
      omega
    rw [zip_all_charMatches _ _ hzl hp]
  · rw [if_neg hlen]
    constructor
    · intro h
      cases h
    · intro h
      have hl := congrArg List.length h
      simp only [List.length_map, List.length_drop] at hl
      omega

lemma regexSafe_ne_dot {c : Char} (h : regexSafeChar c = true) : c ≠ '.' := by
  rintro rfl
  simp [regexSafeChar, isDigit, isUpper] at h

lemma emailMatchesDomain_eq_suffixCI (domain email : String)
    (hd : domain.toList.all regexSafeChar = true) :
    emailMatchesDomain domain email = specSuffixCI domain email := by
  unfold emailMatchesDomain specSuffixCI
  apply matchEnd_eq_suffixCI
  intro c hc
  rcases List.mem_cons.mp hc with rfl | hc
  · decide
  · exact regexSafe_ne_dot (List.all_eq_true.mp hd c hc)

lemma updateFirstManager_eq_map {store : List Employee} {emp : Employee}
    (hu : store.Pairwise (fun a b => a.email ≠ b.email))
    (hmem : emp ∈ store) {e m : String} (he : emp.email = e) :
    updateFirstManager store e m
      = store.map (fun r => if r.email = e then setManagerField r m else r) := by
  induction store with
  | nil => cases hmem
  | cons x xs ih =>
    rcases List.pairwise_cons.mp hu with ⟨hx, hxs⟩
    rcases List.mem_cons.mp hmem with rfl | hmem'
    · unfold updateFirstManager
      rw [if_pos (by simp [he]), List.map_cons, if_pos he]
      have hne : ∀ r ∈ xs, r.email ≠ e :=
        fun r hr hre => hx r hr (he.trans hre.symm)
      have h2 : xs.map (fun r => if r.email = e then setManagerField r m else r) = xs := by
        rw [List.map_congr_left (fun r hr => if_neg (hne r hr))]
        exact List.map_id xs
      rw [h2]
    · have hxe : x.email ≠ e := by
        intro hxe
        exact hx emp hmem' (hxe.trans he.symm)
      unfold updateFirstManager
      rw [if_neg (by simp [hxe]), List.map_cons, if_neg hxe,
        ih hxs hmem']

lemma age_filterMap (store : List Employee) (ageInYears currentUnix : Int) :
    (store.filterMap (fun emp =>
        match atoi emp.birthdate.year, atoi emp.birthdate.month, atoi emp.birthdate.day with
        | some bY, some bM, some bD =>
          if ageAt currentUnix (goDateToDays bY bM bD) = ageInYears then
            some (clearPassword emp)
          else none
        | _, _, _ => none))
      = (store.filter (fun r => specAge currentUnix r == some ageInYears)).map
          clearPassword := by
  rw [← filterMap_guard]
  apply List.filterMap_congr
  intro emp _
  unfold specAge
  rcases hy : atoi emp.birthdate.year with _ | y
  · simp [hy]
  rcases hm : atoi emp.birthdate.month with _ | m
  · simp [hy, hm]
  rcases hd : atoi emp.birthdate.day with _ | d
  · simp [hy, hm, hd]
  by_cases ha : ageAt currentUnix (goDateToDays y m d) = ageInYears
  · simp [hy, hm, hd, ha]
  · simp [hy, hm, hd, ha]

/-- C10: creating an employee whose email or name is the empty string fails
with the 400 validation error "email and name are required", regardless of
the email-format predicate, the clock, the store contents and every other
field of the record (so no later validation can run), and the stored record
set is unchanged. -/
theorem createEmployee_requires_email_and_name (pOk : String → Bool)
    (nowUnix : Int) (store : List Employee) (emp : Employee)
    (h : emp.email = "" ∨ emp.name = "") :
    CreateEmployee pOk nowUnix store emp
      = (Except.error ⟨400, "email and name are required"⟩, store) := by
  unfold CreateEmployee
  rw [if_pos h]

/-- C10 witness: the error and unchanged store at a concrete input. -/
theorem createEmployee_requires_email_and_name_witness :
    (sampleNoEmail.email = "" ∨ sampleNoEmail.name = "")
    ∧ CreateEmployee (fun _ => true) sampleT [sampleEmployee] sampleNoEmail
        = (Except.error ⟨400, "email and name are required"⟩, [sampleEmployee]) :=
  ⟨Or.inl rfl,
   createEmployee_requires_email_and_name (fun _ => true) sampleT
     [sampleEmployee] sampleNoEmail (Or.inl rfl)⟩

/-- C8 counterexample: `strconv.Atoi` accepts a leading sign, so the day
string `"+1"` — two bytes long but not two decimal digits — passes the
format checks, and `validateBirthdate` accepts the birthdate outright
instead of failing with the claimed invalid-format error. -/
theorem validateBirthdate_counterexample :
    validateBirthdate sampleT ⟨"+1", "01", "2000"⟩ = Except.ok ()
    ∧ ("+1".toList.all isDigit) = false
    ∧ "+1".utf8ByteSize = 2 :=
  ⟨rfl, rfl, rfl⟩

/-- C8 (amended): `validateBirthdate` fails with an invalid-format error
exactly when some component has the wrong byte length (day 2, month 2,
year 4) or fails to parse under `strconv.Atoi` (optionally signed decimal);
with well-formed components it fails with the out-of-range error exactly
when the composed (calendar-normalised) date is later than the current
instant, and accepts exactly otherwise. -/
theorem validateBirthdate_format_and_range (nowUnix : Int) (b : Birthdate) :
    isInvalidFormatResult (validateBirthdate nowUnix b)
        = !(bdWidthsOk b && bdParsesOk b)
    ∧ (validateBirthdate nowUnix b
          = Except.error ⟨400, "birthdate cannot be in the future"⟩
        ↔ (bdWidthsOk b && bdParsesOk b) = true ∧ 86400 * bdComposedDays b > nowUnix)
    ∧ (validateBirthdate nowUnix b = Except.ok ()
        ↔ (bdWidthsOk b && bdParsesOk b) = true
          ∧ ¬ 86400 * bdComposedDays b > nowUnix) := by
  by_cases hf : (bdWidthsOk b && bdParsesOk b) = true
  · obtain ⟨hw, hp⟩ : bdWidthsOk b = true ∧ bdParsesOk b = true := by
      simpa using hf
    rw [validateBirthdate_of_format nowUnix b hw hp]
    by_cases hr : 86400 * bdComposedDays b > nowUnix
    · rw [if_pos hr]
      refine ⟨?_, ?_, ?_⟩
      · rw [hf]
        rfl
      · simp [hf, hr]
      · simp [hf, hr]
    · rw [if_neg hr]
      refine ⟨?_, ?_, ?_⟩
      · rw [hf]
        rfl
      · simp [hf, hr]
      · simp [hf, hr]
  · have hf' : (bdWidthsOk b && bdParsesOk b) = false := by
      simpa using hf
    have hif := validateBirthdate_format_fail nowUnix b hf'
    obtain ⟨hok, hfut⟩ := isInvalidFormatResult_shape hif
    refine ⟨by rw [hif, hf']; rfl, ?_, ?_⟩
    · constructor
      · intro h
        exact absurd h hfut
      · rintro ⟨h1, _⟩
        exact absurd h1 hf
    · constructor
      · intro h
        exact absurd h hok
      · rintro ⟨h1, _⟩
        exact absurd h1 hf

/-- C9: whenever the birthdate components have the required widths and parse
as integers, `validateBirthdate` accepts if and only if the composed,
calendar-normalised date is not in the future — even for component values
outside the calendar range (e.g. month 13 or day 45), which `time.Date`
normalises by calendar arithmetic. -/
theorem validateBirthdate_accepts_normalised (nowUnix : Int) (b : Birthdate)
    (hw : bdWidthsOk b = true) (hp : bdParsesOk b = true) :
    validateBirthdate nowUnix b = Except.ok ()
      ↔ ¬ 86400 * bdComposedDays b > nowUnix := by
  rw [validateBirthdate_of_format nowUnix b hw hp]
  by_cases hr : 86400 * bdComposedDays b > nowUnix
  · simp [hr]
  · simp [hr]

/-- C9 witness: month "13", day "45" (normalising to 2000-02-14) is
accepted at the 2020 reference instant. -/
theorem validateBirthdate_accepts_normalised_witness :
    bdWidthsOk ⟨"45", "13", "1999"⟩ = true
    ∧ bdParsesOk ⟨"45", "13", "1999"⟩ = true
    ∧ validateBirthdate sampleT ⟨"45", "13", "1999"⟩ = Except.ok () :=
  ⟨rfl, rfl,
   (validateBirthdate_accepts_normalised sampleT ⟨"45", "13", "1999"⟩ rfl rfl).mpr
     (by decide)⟩

/-- C4: email uniqueness.  Creation preserves pairwise-distinct emails; when
some stored record already carries the new employee's email, the insert
leaves the store unchanged and never succeeds, and when the new record
passes all field validations the failure is precisely the 409 conflict
error. -/
theorem createEmployee_email_unique (pOk : String → Bool) (nowUnix : Int)
    (store : List Employee) (emp : Employee) :
    ((store.Pairwise fun a b => a.email ≠ b.email) →
      ((CreateEmployee pOk nowUnix store emp).2.Pairwise fun a b => a.email ≠ b.email))
    ∧ ((∃ r ∈ store, r.email = emp.email) →
        (CreateEmployee pOk nowUnix store emp).2 = store
        ∧ (∀ res, (CreateEmployee pOk nowUnix store emp).1 ≠ Except.ok res)
        ∧ (fieldChecksPass pOk nowUnix store emp = true →
            (CreateEmployee pOk nowUnix store emp).1
              = Except.error ⟨409, "employee with this email already exists"⟩)) := by
  have hconf : (∃ r ∈ store, r.email = emp.email) →
      fieldChecksPass pOk nowUnix store emp = true →
      (CreateEmployee pOk nowUnix store emp).1
        = Except.error ⟨409, "employee with this email already exists"⟩ := by
    rintro ⟨r, hr, hre⟩ hf
    have hdup : store.any (fun r => r.email == emp.email) = true :=
      List.any_eq_true.mpr ⟨r, hr, by simp [hre]⟩
    rw [createEmployee_conflict pOk nowUnix store emp hf hdup]
  rcases createEmployee_shape pOk nowUnix store emp with ⟨hs, hne⟩ | ⟨heq, hany, _⟩
  · exact ⟨fun hu => by rw [hs]; exact hu, fun hdup => ⟨hs, hne, hconf hdup⟩⟩
  · constructor
    · intro hu
      rw [heq]
      rw [List.pairwise_append]
      refine ⟨hu, List.pairwise_singleton _ _, ?_⟩
      intro a ha b hb
      rw [List.mem_singleton.mp hb]
      have := List.any_eq_false.mp hany a ha
      simpa using this
    · rintro ⟨r, hr, hre⟩
      exfalso
      have := List.any_eq_false.mp hany r hr
      simp [hre] at this

/-- C4 witness: inserting a valid record with an email already stored fails
with the conflict error and leaves the one-record store unchanged. -/
theorem createEmployee_email_unique_witness :
    (∃ r ∈ [sampleEmployee], r.email = (mkEmp "alice@b.c" "02" "02" "1995").email)
    ∧ (CreateEmployee (fun _ => true) sampleT [sampleEmployee]
          (mkEmp "alice@b.c" "02" "02" "1995")).2 = [sampleEmployee]
    ∧ (fieldChecksPass (fun _ => true) sampleT [sampleEmployee]
          (mkEmp "alice@b.c" "02" "02" "1995") = true →
        (CreateEmployee (fun _ => true) sampleT [sampleEmployee]
            (mkEmp "alice@b.c" "02" "02" "1995")).1
          = Except.error ⟨409, "employee with this email already exists"⟩) := by
  have h := (createEmployee_email_unique (fun _ => true) sampleT [sampleEmployee]
    (mkEmp "alice@b.c" "02" "02" "1995")).2
    ⟨sampleEmployee, by simp, rfl⟩
  exact ⟨⟨sampleEmployee, by simp, rfl⟩, h.1, h.2.2⟩

/-- C5: a successful creation inserts the record as given, and the
subsequent credential lookup with the same email and password succeeds,
returning the record with every field preserved except the password, which
is cleared. -/
theorem create_then_lookup (pOk : String → Bool) (nowUnix : Int)
    (store : List Employee) (emp : Employee) (res : Employee)
    (store' : List Employee)
    (h : CreateEmployee pOk nowUnix store emp = (Except.ok res, store')) :
    GetEmployee store' emp.email emp.password = Except.ok (clearPassword emp)
    ∧ res = clearPassword emp
    ∧ (clearPassword emp).email = emp.email
    ∧ (clearPassword emp).name = emp.name
    ∧ (clearPassword emp).birthdate = emp.birthdate
    ∧ (clearPassword emp).roles = emp.roles
    ∧ (clearPassword emp).manager = emp.manager
    ∧ (clearPassword emp).password = "" := by
  rcases createEmployee_shape pOk nowUnix store emp with ⟨_, hne⟩ | ⟨heq, hany, _⟩
  · exact absurd (by rw [h]) (hne res)
  · rw [h] at heq
    obtain ⟨hres, hst⟩ := Prod.mk.injEq .. ▸ heq
    have hres' : res = clearPassword emp := by
      cases hres
      rfl
    refine ⟨?_, hres', rfl, rfl, rfl, rfl, rfl, rfl⟩
    unfold GetEmployee
    rw [hst, List.find?_append]
    have h1 : store.find? (fun r => r.email == emp.email && r.password == emp.password)
        = none := by
      rw [List.find?_eq_none]
      intro x hx
      have := List.any_eq_false.mp hany x hx
      simp at this
      simp [this]
    rw [h1]
    simp

/-- C5 witness: the round trip at a concrete valid employee and empty store. -/
theorem create_then_lookup_witness :
    CreateEmployee (fun _ => true) sampleT [] sampleEmployee
      = (Except.ok (clearPassword sampleEmployee), [sampleEmployee])
    ∧ GetEmployee [sampleEmployee] sampleEmployee.email sampleEmployee.password
      = Except.ok (clearPassword sampleEmployee) :=
  ⟨rfl,
   (create_then_lookup (fun _ => true) sampleT [] sampleEmployee
     (clearPassword sampleEmployee) [sampleEmployee] rfl).1⟩

/-- C6: `GetManager` over a store with pairwise-distinct emails: 404
"employee not found" when the employee email resolves to no record; 404
"manager not set" when the record exists with an absent manager field; 404
"manager not found" when the manager reference dangles (the stored reference
is left untouched — the operation performs no writes); otherwise success
with the manager record, password cleared. -/
theorem getManager_cases (store : List Employee) (e : String)
    (hu : store.Pairwise fun a b => a.email ≠ b.email) :
    ((∀ r ∈ store, r.email ≠ e) →
      GetManager store e = Except.error ⟨404, "employee not found"⟩)
    ∧ (∀ emp, emp ∈ store → emp.email = e →
        (emp.manager = none →
          GetManager store e = Except.error ⟨404, "manager not set"⟩)
        ∧ (∀ me, emp.manager = some me →
            ((∀ r ∈ store, r.email ≠ me) →
              GetManager store e = Except.error ⟨404, "manager not found"⟩)
            ∧ (∀ mgr, mgr ∈ store → mgr.email = me →
                GetManager store e = Except.ok (clearPassword mgr)
                ∧ (clearPassword mgr).password = ""))) := by
  constructor
  · intro hnone
    unfold GetManager
    rw [List.find?_eq_none.mpr (fun x hx => by simp [hnone x hx])]
  · intro emp hmem he
    have hfind : store.find? (fun r => r.email == e) = some emp :=
      find?_unique hu hmem he
    constructor
    · intro hmgr
      unfold GetManager
      rw [hfind]
      simp [hmgr]
    · intro me hmgr
      constructor
      · intro hnone
        have hn : store.find? (fun r => r.email == me) = none :=
          List.find?_eq_none.mpr (fun x hx => by simp [hnone x hx])
        unfold GetManager
        rw [hfind]
        simp [hmgr, hn]
      · intro mgr hmgrMem hmgrE
        have hfind2 : store.find? (fun r => r.email == me) = some mgr :=
          find?_unique hu hmgrMem hmgrE
        constructor
        · unfold GetManager
          rw [hfind]
          simp [hmgr, hfind2]
        · rfl

/-- C6 witness: the success path on a concrete two-record store. -/
theorem getManager_cases_witness :
    (mgrStore.Pairwise fun a b => a.email ≠ b.email)
    ∧ GetManager mgrStore "alice@x.com"
        = Except.ok (clearPassword ⟨"bob@x.com", "Bob", "Pb5", sampleBirthdate, [], none⟩) := by
  have hu : mgrStore.Pairwise fun a b => a.email ≠ b.email := by
    unfold mgrStore
    simp
  refine ⟨hu, ?_⟩
  exact ((((getManager_cases mgrStore "alice@x.com" hu).2
    ⟨"alice@x.com", "Alice", "Pa5", sampleBirthdate, [], some "bob@x.com"⟩
    (by simp [mgrStore]) rfl).2 "bob@x.com" rfl).2
    ⟨"bob@x.com", "Bob", "Pb5", sampleBirthdate, [], none⟩
    (by simp [mgrStore]) rfl).1

/-- C7: `SetManager` over a store with pairwise-distinct emails: 404 when
the employee email resolves to no record; 400 "manager not found" when the
manager email is non-empty and resolves to no record; otherwise success,
replacing the store by a copy in which only the matching record's manager
field is set while every other field of that record and every other record
are untouched. -/
theorem setManager_cases (store : List Employee) (e m : String)
    (hu : store.Pairwise fun a b => a.email ≠ b.email) :
    ((∀ r ∈ store, r.email ≠ e) →
      SetManager store e m = (Except.error ⟨404, "employee not found"⟩, store))
    ∧ (∀ emp, emp ∈ store → emp.email = e →
        ((m ≠ "" → (∀ r ∈ store, r.email ≠ m) →
            SetManager store e m = (Except.error ⟨400, "manager not found"⟩, store))
         ∧ ((m = "" ∨ ∃ r ∈ store, r.email = m) →
             (SetManager store e m).1 = Except.ok ()
             ∧ (SetManager store e m).2
                 = store.map (fun r => if r.email = e then setManagerField r m else r)
             ∧ (∀ r : Employee, (setManagerField r m).email = r.email
                 ∧ (setManagerField r m).name = r.name
                 ∧ (setManagerField r m).password = r.password
                 ∧ (setManagerField r m).birthdate = r.birthdate
                 ∧ (setManagerField r m).roles = r.roles
                 ∧ (setManagerField r m).manager = some m)))) := by
  constructor
  · intro hnone
    unfold SetManager
    rw [List.find?_eq_none.mpr (fun x hx => by simp [hnone x hx])]
  · intro emp hmem he
    have hfind : store.find? (fun r => r.email == e) = some emp :=
      find?_unique hu hmem he
    constructor
    · intro hm hnone
      have hvm : validateManager store m = .error ⟨400, "manager not found"⟩ := by
        unfold validateManager
        rw [if_neg hm,
          List.find?_eq_none.mpr (fun x hx => by simp [hnone x hx])]
      unfold SetManager
      rw [hfind]
      simp [hvm]
    · intro hok
      have hvm : validateManager store m = .ok () := by
        unfold validateManager
        rcases hok with rfl | ⟨r, hr, hre⟩
        · rw [if_pos rfl]
        · by_cases hm : m = ""
          · rw [if_pos hm]
          · rw [if_neg hm, find?_unique hu hr hre]
      have hupd : updateFirstManager store e m
          = store.map (fun r => if r.email = e then setManagerField r m else r) :=
        updateFirstManager_eq_map hu hmem he
      constructor
      · unfold SetManager
        rw [hfind]
        simp [hvm]
      constructor
      · unfold SetManager
        rw [hfind]
        simp [hvm, hupd]
      · intro r
        exact ⟨rfl, rfl, rfl, rfl, rfl, rfl⟩

/-- C7 witness: setting bob as alice's manager on a concrete store updates
exactly alice's manager field. -/
theorem setManager_cases_witness :
    (mgrStore.Pairwise fun a b => a.email ≠ b.email)
    ∧ (SetManager mgrStore "bob@x.com" "alice@x.com").1 = Except.ok ()
    ∧ (SetManager mgrStore "bob@x.com" "alice@x.com").2
        = mgrStore.map (fun r =>
            if r.email = "bob@x.com" then setManagerField r "alice@x.com" else r) := by
  have hu : mgrStore.Pairwise fun a b => a.email ≠ b.email := by
    unfold mgrStore
    simp
  have h := ((setManager_cases mgrStore "bob@x.com" "alice@x.com" hu).2
    ⟨"bob@x.com", "Bob", "Pb5", sampleBirthdate, [], none⟩
    (by simp [mgrStore]) rfl).2
    (Or.inr ⟨⟨"alice@x.com", "Alice", "Pa5", sampleBirthdate, [], some "bob@x.com"⟩,
      by simp [mgrStore], rfl⟩)
  exact ⟨hu, h.1, h.2.1⟩

/-- C3: `GetSubordinates` equals the spec-side description (exactly the
records with the given manager, sorted by email ascending, skip/limit
paginated, passwords cleared); its output is email-sorted; every returned
record has a cleared password and originates from a stored record whose
manager field equals the queried email; when no record matches — in
particular when the manager email belongs to no employee — it returns the
empty list (never an error); and a single sufficiently large first page is
a permutation of all matching records. -/
theorem getSubordinates_correct (store : List Employee) (m : String)
    (page size : Nat) (hp : 1 ≤ page) (hs : 1 ≤ size) :
    GetSubordinates store m page size = specSubordinates store m page size
    ∧ (GetSubordinates store m page size).Pairwise emailLe
    ∧ (∀ x ∈ GetSubordinates store m page size,
        x.password = "" ∧ ∃ r ∈ store, r.manager = some m ∧ x = clearPassword r)
    ∧ ((∀ r ∈ store, r.manager ≠ some m) → GetSubordinates store m page size = [])
    ∧ (page = 1 → (store.filter (fun e => e.manager == some m)).length ≤ size →
        (GetSubordinates store m page size).Perm
          ((store.filter (fun e => e.manager == some m)).map clearPassword)) := by
  refine ⟨rfl, ?_, ?_, ?_, ?_⟩
  · apply List.Pairwise.map _ (fun a b h => emailLe_clearPassword h)
    apply List.Pairwise.sublist
      ((List.take_sublist _ _).trans (List.drop_sublist _ _))
    exact List.sorted_insertionSort emailLe _
  · intro x hx
    unfold GetSubordinates at hx
    obtain ⟨y, hy, rfl⟩ := List.mem_map.mp hx
    have hy2 : y ∈ List.insertionSort emailLe
        (store.filter (fun e => e.manager == some m)) :=
      (List.drop_sublist _ _).mem ((List.take_sublist _ _).mem hy)
    rw [List.mem_insertionSort] at hy2
    obtain ⟨hys, hym⟩ := List.mem_filter.mp hy2
    exact ⟨rfl, y, hys, by simpa using hym, rfl⟩
  · intro hnone
    unfold GetSubordinates
    have hf : store.filter (fun e => e.manager == some m) = [] :=
      List.filter_eq_nil_iff.mpr (fun a ha => by simp [hnone a ha])
    rw [hf]
    simp [List.insertionSort]
  · rintro rfl hlen
    unfold GetSubordinates
    have hlen2 : (List.insertionSort emailLe
        (store.filter (fun e => e.manager == some m))).length ≤ size := by
      rw [(List.perm_insertionSort emailLe _).length_eq]
      exact hlen
    rw [Nat.sub_self, Nat.zero_mul, List.drop_zero, List.take_of_length_le hlen2]
    exact (List.perm_insertionSort emailLe _).map clearPassword

/-- C3 witness: querying subordinates of a manager email that is not even a
stored employee returns the empty list on a concrete store. -/
theorem getSubordinates_correct_witness :
    1 ≤ 1 ∧ 1 ≤ 10
    ∧ GetSubordinates mgrStore "carol@x.com" 1 10 = [] :=
  ⟨Nat.le_refl 1, by omega,
   (getSubordinates_correct mgrStore "carol@x.com" 1 10 (Nat.le_refl 1)
     (by omega)).2.2.2.1 (by simp [mgrStore])⟩

/-- C2 counterexample: the domain string is spliced into a regular
expression, where `.` matches any character.  With domain "other.com" the
stored record with email "alice@otherxcom" is returned even though the
literal characters "@other.com" are not a suffix of that email — refuting
the claim that only exact literal suffixes match. -/
theorem emailDomain_counterexample :
    GetEmployeesByEmailDomain dotStore "other.com" 1 10
      = [clearPassword ⟨"alice@otherxcom", "Alice", "Pa5", sampleBirthdate, [], none⟩]
    ∧ specSuffixCI "other.com" "alice@otherxcom" = false :=
  ⟨rfl, rfl⟩

/-- C2 (amended): the `$regex`-based domain filter coincides with the
case-insensitive literal suffix match "@" ++ domain whenever the domain
contains only regex-literal characters (letters, digits, hyphen,
underscore); every returned record then has a cleared password and stems
from a stored record whose email carries the literal suffix; and the spec's
concrete examples hold: alice@other1.com matches domain other1.com but not
other.com. -/
theorem emailDomain_filter (store : List Employee) (domain : String)
    (page size : Nat) (hd : domain.toList.all regexSafeChar = true) :
    GetEmployeesByEmailDomain store domain page size
      = specByEmailDomain store domain page size
    ∧ (∀ x ∈ GetEmployeesByEmailDomain store domain page size,
        x.password = ""
        ∧ ∃ r ∈ store, specSuffixCI domain r.email = true ∧ x = clearPassword r)
    ∧ emailMatchesDomain "other1.com" "alice@other1.com" = true
    ∧ emailMatchesDomain "other.com" "alice@other1.com" = false := by
  have hfeq : store.filter (fun e => emailMatchesDomain domain e.email)
      = store.filter (fun e => specSuffixCI domain e.email) :=
    List.filter_congr (fun x _ => emailMatchesDomain_eq_suffixCI domain x.email hd)
  refine ⟨?_, ?_, rfl, rfl⟩
  · unfold GetEmployeesByEmailDomain specByEmailDomain
    rw [hfeq]
  · intro x hx
    unfold GetEmployeesByEmailDomain at hx
    obtain ⟨y, hy, rfl⟩ := List.mem_map.mp hx
    have hy2 : y ∈ store.filter (fun e => emailMatchesDomain domain e.email) :=
      (List.drop_sublist _ _).mem ((List.take_sublist _ _).mem hy)
    rw [hfeq] at hy2
    obtain ⟨hys, hym⟩ := List.mem_filter.mp hy2
    exact ⟨rfl, y, hys, hym, rfl⟩

/-- C2 amended witness: on a store containing alice@other1.com, the
metacharacter-free domain other1.com returns exactly that record. -/
theorem emailDomain_filter_witness :
    ("other1com".toList.all regexSafeChar) = true
    ∧ GetEmployeesByEmailDomain [mkEmp "alice@other1.com" "01" "01" "1990"]
        "other1com" 1 10
      = specByEmailDomain [mkEmp "alice@other1.com" "01" "01" "1990"]
        "other1com" 1 10 :=
  ⟨rfl,
   (emailDomain_filter [mkEmp "alice@other1.com" "01" "01" "1990"]
     "other1com" 1 10 rfl).1⟩

/-- C1: `GetEmployeesByAge` scans the whole store and equals the spec-side
pipeline — keep exactly the records whose calendar-aware age at the
reference instant equals the requested age, sort ascending by full calendar
birthdate, then slice from `(page-1)*size` with length at most `size`;
every returned record has the requested computed age; the result is sorted
ascending by birthdate; and when `(page-1)*size` exceeds the filtered set's
size the result is the empty list (the operation cannot fail). -/
theorem getEmployeesByAge_correct (store : List Employee)
    (ageInYears currentUnix : Int) (page size : Nat)
    (hp : 1 ≤ page) (hs : 1 ≤ size) :
    GetEmployeesByAge store ageInYears currentUnix page size
      = specByAge store ageInYears currentUnix page size
    ∧ (∀ x ∈ GetEmployeesByAge store ageInYears currentUnix page size,
        specAge currentUnix x = some ageInYears ∧ x.password = "")
    ∧ (GetEmployeesByAge store ageInYears currentUnix page size).Pairwise bdLe
    ∧ ((page - 1) * size
          > (store.filter (fun r => specAge currentUnix r == some ageInYears)).length →
        GetEmployeesByAge store ageInYears currentUnix page size = []) := by
  have heq : GetEmployeesByAge store ageInYears currentUnix page size
      = specByAge store ageInYears currentUnix page size := by
    simp only [GetEmployeesByAge, specByAge]
    rw [age_filterMap]
    exact goSlice_eq_drop_take _ _ _
  have hlen : (List.insertionSort bdLe
      ((store.filter (fun r => specAge currentUnix r == some ageInYears)).map
        clearPassword)).length
      = (store.filter (fun r => specAge currentUnix r == some ageInYears)).length := by
    rw [(List.perm_insertionSort bdLe _).length_eq, List.length_map]
  refine ⟨heq, ?_, ?_, ?_⟩
  · intro x hx
    rw [heq] at hx
    unfold specByAge at hx
    have hx2 : x ∈ List.insertionSort bdLe
        ((store.filter (fun r => specAge currentUnix r == some ageInYears)).map
          clearPassword) :=
      (List.drop_sublist _ _).mem ((List.take_sublist _ _).mem hx)
    rw [List.mem_insertionSort] at hx2
    obtain ⟨y, hy, rfl⟩ := List.mem_map.mp hx2
    obtain ⟨hys, hya⟩ := List.mem_filter.mp hy
    exact ⟨by simpa using hya, rfl⟩
  · rw [heq]
    unfold specByAge
    apply List.Pairwise.sublist
      ((List.take_sublist _ _).trans (List.drop_sublist _ _))
    exact List.sorted_insertionSort bdLe _
  · intro hgt
    rw [heq]
    unfold specByAge
    rw [List.drop_eq_nil_of_le (by omega), List.take_nil]

/-- C1 witness: on a store whose records have ages 29, 30 and 31 at the
reference instant, the age-30 query at page 1 returns exactly the age-30
record. -/
theorem getEmployeesByAge_correct_witness :
    1 ≤ 1 ∧ 1 ≤ 10
    ∧ GetEmployeesByAge ageStore 30 sampleT 1 10
        = specByAge ageStore 30 sampleT 1 10
    ∧ GetEmployeesByAge ageStore 30 sampleT 1 10
        = [clearPassword (mkEmp "b@x.com" "01" "01" "1990")] :=
  ⟨Nat.le_refl 1, by omega,
   (getEmployeesByAge_correct ageStore 30 sampleT 1 10 (Nat.le_refl 1)
     (by omega)).1,
   by decide⟩
